import Mathlib

/-!
Verification development for the cmdx command registry and dispatcher.

The registry (`src/packages/core/src/shared/core/registry.ts`, class
`BaseRegistry`) is embedded as pure functions over an explicit state
`St`; the server dispatcher (`src/src/server/dispatcher.ts`, class
`ServerDispatcher`) as a pure function over the outcome of the shared
execution pipeline.  TypeScript `Map`s become association lists mutated
by `insertA`/`eraseA`; raised errors (logger assertions and structural
errors) become `Option RegErr` results carried alongside the possibly
partially mutated state, mirroring the fact that in-place mutations
performed before a raise persist.
-/

set_option maxRecDepth 4000

namespace Cmdx

/-- A registry path: the ordered sequence of name segments
(`RegistryPath` in the source).  Modelled from the spec: the class
itself lives in `path.ts`, which is not part of the sources; the spec
describes it as an ordered sequence of segments with `parent()` (drop
the last segment), `slice` (leading segments), `tail()` (last segment),
structural equality and a canonical string form joined by a
separator. -/
abbrev Path := List String

/-- ASCII lower-casing of a character, the model of Lua `string.lower`
applied character-wise (Lua lower-cases only ASCII `A`-`Z`). -/
def lowerC (c : Char) : Char :=
  if 65 ≤ c.toNat ∧ c.toNat ≤ 90 then Char.ofNat (c.toNat + 32) else c

/-- ASCII lower-casing of a string: the model of Lua `string.lower`,
written `.lower()` throughout the source. -/
def lowerS (s : String) : String := String.mk (s.data.map lowerC)

/-- Canonical string form of a path: segments joined by the separator
(`RegistryPath.toString` in the source; modelled from the spec's
"canonical string form (segments joined by a separator)"). -/
def joinSep : Path → String
  | [] => ""
  | [s] => s
  | s :: rest => s ++ "/" ++ joinSep rest

/-- `RegistryPath.parent()`: drop the last segment (modelled from the
spec; a single-segment path yields the empty path, whose canonical
string is empty and never occurs as a registered key). -/
def parentPath (p : Path) : Path := p.dropLast

/-- `RegistryPath.tail()`: the last segment (modelled from the spec). -/
def tailStr (p : Path) : String := p.getLastD ""

/-- The segment charset check of `validatePath`: Lua pattern
`^[a-zA-Z0-9_]+$`. -/
def isValidSegment (s : String) : Bool :=
  !s.data.isEmpty && s.data.all (fun c => c.isAlphanum || c = '_')

/-- An argument type descriptor.  The `transform`/`suggestions`
callbacks cannot be compared or executed in the embedding, so they are
abstracted into an opaque `payload` that preserves descriptor
identity; `name` and `expensive` are as in the source's
`ArgumentType`. -/
structure ArgType where
  name : String
  expensive : Bool
  payload : Nat
deriving DecidableEq

/-- A command (`BaseCommand`/`ExecutableCommand` in `command.ts`, which
is not part of the sources).  Modelled from the spec: a command owns a
list of paths (primary + aliases) and is one logical entity; its
options, callback and guards are abstracted into an opaque
`payload`. -/
structure Cmd where
  paths : List Path
  payload : Nat
deriving DecidableEq

/-- `BaseCommand.getPath()`: the primary (first) path. -/
def primaryPath (c : Cmd) : Path := c.paths.headD []

/-- A command group (`CommandGroup` in `command.ts`, which is not part
of the sources).  Modelled from the spec: a group has its path, its
options name, child groups and child commands.  Following the spec's
design note that tree links are plain lookup keys resolved through the
registry's group map (never owning references), `childGroups` stores
`(options name, canonical path string)` pairs; `childCommands` stores
the command values. -/
structure Grp where
  path : Path
  optionsName : String
  childGroups : List (String × String)
  childCommands : List Cmd
deriving DecidableEq

/-- `CommandGroup.hasGroup(name)` (modelled from the spec: lookup by
child name). -/
def hasGroup (g : Grp) (n : String) : Bool := g.childGroups.any (fun nk => nk.1 = n)

/-- `CommandGroup.addGroup(group)` (modelled from the spec: link a
child group under its options name). -/
def addChildGroup (g : Grp) (child : Grp) : Grp :=
  { g with childGroups := g.childGroups ++ [(child.optionsName, joinSep child.path)] }

/-- `CommandGroup.removeGroup(group)` (modelled from the spec: unlink
the child group). -/
def removeChildGroup (g : Grp) (child : Grp) : Grp :=
  { g with childGroups := g.childGroups.filter (fun nk => nk.2 ≠ joinSep child.path) }

/-- `CommandGroup.addCommand(command)` (modelled from the spec: append
to the child command list). -/
def addChildCommand (g : Grp) (c : Cmd) : Grp :=
  { g with childCommands := g.childCommands ++ [c] }

/-- `CommandGroup.removeCommand(command)` (modelled from the spec:
remove the command from the child list). -/
def removeChildCommand (g : Grp) (c : Cmd) : Grp :=
  { g with childCommands := g.childCommands.filter (fun c0 => c0 ≠ c) }

/-- A lifecycle event fired on one of the registry's four signals. -/
inductive Event where
  | commandRegistered (c : Cmd)
  | commandUnregistered (c : Cmd)
  | groupRegistered (p : Path)
  | groupUnregistered (p : Path)
deriving DecidableEq

/-- An error raised inside the registry.  `CenturionLogger` lives in
`util/log.ts`, which is not part of the sources.  Modelled from the
spec: `logger.error` reports a structural error and halts the offending
registration (spec: "reported via the logging channel and the offending
registration is skipped"); `logger.assert` halts on a failed
precondition (spec: "treated as a hard precondition failure —
appropriate to halt the calling code path").  Both therefore raise;
the raise is made explicit as an `Option RegErr` result. -/
inductive RegErr where
  | invalidPath
  | duplicateCommand
  | commandExistsAsGroup
  | groupExistsAsCommand
  | duplicateGroup
  | missingParent
  | assertFailure
  | fuelExhausted
deriving DecidableEq

/-- Association-list lookup, the model of `Map.get`. -/
def lookupA {α : Type} : List (String × α) → String → Option α
  | [], _ => none
  | (k0, v) :: rest, k => if k0 = k then some v else lookupA rest k

/-- Association-list insert/replace, the model of `Map.set`: replaces
the value in place when the key exists, appends otherwise. -/
def insertA {α : Type} : List (String × α) → String → α → List (String × α)
  | [], k, v => [(k, v)]
  | (k0, v0) :: rest, k, v =>
    if k0 = k then (k, v) :: rest else (k0, v0) :: insertA rest k v

/-- Association-list removal, the model of `Map.delete`. -/
def eraseA {α : Type} (m : List (String × α)) (k : String) : List (String × α) :=
  m.filter (fun kv => kv.1 ≠ k)

/-- Map the value stored at a key, if present (model of mutating an
object obtained from a `Map`, whose entry aliases the object). -/
def mapA {α : Type} (m : List (String × α)) (k : String) (f : α → α) : List (String × α) :=
  m.map (fun kv => if kv.1 = k then (kv.1, f kv.2) else kv)

/-- The whole registry state: the maps of `BaseRegistry` plus the
chronological list of fired lifecycle events. -/
structure St where
  commands : List (String × Cmd)
  groups : List (String × Grp)
  types : List (String × ArgType)
  cachedPaths : List (String × List Path)
  events : List Event
deriving DecidableEq

/-- The empty registry. -/
def emptySt : St := ⟨[], [], [], [], []⟩

/-- `BaseRegistry.ROOT_KEY`. -/
def rootKey : String := "__root__"

/-- Lexicographic comparison of character sequences by code point, the
model of Lua's byte-wise string ordering used by `table.sort`
comparators (identical to it on the ASCII strings involved). -/
def leChars : List Char → List Char → Bool
  | [], _ => true
  | _ :: _, [] => false
  | a :: as, b :: bs =>
    if a.toNat < b.toNat then true
    else if a.toNat = b.toNat then leChars as bs
    else false

/-- Nonstrict string ordering derived from `leChars`. -/
def leStr (a b : String) : Bool := leChars a.data b.data

/-- One ordered insertion for `sortByTail`. -/
def insertByTail (x : Path) : List Path → List Path
  | [] => [x]
  | y :: ys => if leStr (tailStr x) (tailStr y) then x :: y :: ys else y :: insertByTail x ys

/-- The model of `cache.sort((a, b) => a.tail() < b.tail())` (Lua
`table.sort` ordering by last segment; on the registry's lists all
tails are distinct, so the sorted result is unique and insertion sort
is a faithful model). -/
def sortByTail (l : List Path) : List Path := l.foldr insertByTail []

/-- The child-path cache map type. -/
abbrev CacheMap := List (String × List Path)

/-- The loop body of `BaseRegistry.cachePath`: walks the prefixes of
`pref ++ segs`, inserting each next-longer prefix (deduplicated, then
re-sorted by last segment) into the list stored at the previous
prefix's key, starting from `rootKey`. -/
def cachePathGo (cache : CacheMap) (key : String) (pref : Path) : List String → CacheMap
  | [] => cache
  | seg :: rest =>
    let slice := pref ++ [seg]
    let cur := (lookupA cache key).getD []
    let cur2 := if cur.any (fun v => v = slice) then cur else sortByTail (cur ++ [slice])
    cachePathGo (insertA cache key cur2) (joinSep slice) slice rest

/-- `BaseRegistry.cachePath(path)` acting on the cache map. -/
def cachePathFn (cache : CacheMap) (path : Path) : CacheMap :=
  cachePathGo cache rootKey [] path

/-- The loop body of `BaseRegistry.uncachePath`: walks the prefixes,
removing each next-longer prefix from the list at the previous key;
deletes a key whose list becomes empty, and stops (`break`) as soon as
a key is absent. -/
def uncachePathGo (cache : CacheMap) (key : String) (pref : Path) : List String → CacheMap
  | [] => cache
  | seg :: rest =>
    match lookupA cache key with
    | none => cache
    | some cur =>
      let slice := pref ++ [seg]
      let newCache := sortByTail (cur.filter (fun v => v ≠ slice))
      let cache2 := if newCache.isEmpty then eraseA cache key else insertA cache key newCache
      uncachePathGo cache2 (joinSep slice) slice rest

/-- `BaseRegistry.uncachePath(path)` acting on the cache map. -/
def uncachePathFn (cache : CacheMap) (path : Path) : CacheMap :=
  uncachePathGo cache rootKey [] path

/-- `BaseRegistry.getChildPaths(path)`: cached lookup under the
lower-cased canonical string, defaulting to the empty list. -/
def getChildPaths (s : St) (p : Path) : List Path :=
  (lookupA s.cachedPaths (lowerS (joinSep p))).getD []

/-- `BaseRegistry.getRootPaths()`. -/
def getRootPaths (s : St) : List Path :=
  (lookupA s.cachedPaths rootKey).getD []

/-- `BaseRegistry.getType(name)`. -/
def getType (s : St) (n : String) : Option ArgType := lookupA s.types n

/-- `BaseRegistry.getCommand(path)`. -/
def getCommand (s : St) (p : Path) : Option Cmd := lookupA s.commands (joinSep p)

/-- `BaseRegistry.getGroup(path)`. -/
def getGroup (s : St) (p : Path) : Option Grp := lookupA s.groups (joinSep p)

/-- `BaseRegistry.validatePath(path, isCommand)`: charset check, then
uniqueness against both the command and the group maps; any failure is
reported through `logger.error`, i.e. raises. -/
def validatePath (s : St) (path : Path) (isCommand : Bool) : Option RegErr :=
  if path.all isValidSegment then
    if (lookupA s.commands (joinSep path)).isSome then
      if isCommand then some RegErr.duplicateCommand else some RegErr.commandExistsAsGroup
    else if (lookupA s.groups (joinSep path)).isSome then
      if isCommand then some RegErr.groupExistsAsCommand else some RegErr.duplicateGroup
    else none
  else some RegErr.invalidPath

/-- `BaseRegistry.registerType(...types)`: last write wins per name. -/
def registerType (s : St) (types : List ArgType) : St :=
  { s with types := types.foldl (fun m t => insertA m t.name t) s.types }

/-- A sequence of `registerType` calls, each with its vararg batch. -/
def runRegisterTypes (s : St) (batches : List (List ArgType)) : St :=
  batches.foldl registerType s

/-- A group definition as passed to `registerGroup` (`GroupOptions`):
a name and an optional parent path given as raw strings; the
description field plays no role in registration. -/
structure GroupOptions where
  name : String
  parent : Option (List String)
deriving DecidableEq

/-- The path built for a group definition inside `registerGroup`:
lower-cased parent parts followed by the lower-cased name. -/
def buildPath (g : GroupOptions) : Path :=
  (g.parent.getD []).map lowerS ++ [lowerS g.name]

/-- The `CommandGroup` objects constructed at the top of
`registerGroup`, one per definition, in the given order. -/
def buildGroups (batch : List GroupOptions) : List Grp :=
  batch.map (fun g => ⟨buildPath g, g.name, [], []⟩)

/-- The comparator of `commandGroups.sort((a, b) => a.getPath().size() <
b.getPath().size())` read as the nonstrict ordering it sorts by. -/
def sizeLe (a b : Grp) : Bool := decide (a.path.length ≤ b.path.length)

/-- One ordered insertion for `sortGroups`. -/
def insertBySize (x : Grp) : List Grp → List Grp
  | [] => [x]
  | y :: ys => if sizeLe x y then x :: y :: ys else y :: insertBySize x ys

/-- The model of the `table.sort` call in `registerGroup`: a
permutation of the batch that is nondecreasing in path size (insertion
sort; `table.sort` is unstable, so any such permutation is admissible
and theorems about batch outcomes keep sizes distinct). -/
def sortGroups (l : List Grp) : List Grp := l.foldr insertBySize []

/-- The per-group half of `registerGroup` after the checks: insert into
`groups`, update the cache, fire `groupRegistered`. -/
def commitGroup (s : St) (g : Grp) : St :=
  { s with
    groups := insertA s.groups (joinSep g.path) g
    cachedPaths := cachePathFn s.cachedPaths g.path
    events := s.events ++ [Event.groupRegistered g.path] }

/-- The registration loop of `BaseRegistry.registerGroup` over the
depth-sorted group list.  A `validatePath` failure raises; a missing
parent reaches `logger.error` and aborts the whole call (the `return`
after it is unreachable); a duplicate child name under the parent hits
`continue`, skipping only that group. -/
def registerGroupLoop : St → List Grp → St × Option RegErr
  | s, [] => (s, none)
  | s, g :: rest =>
    match validatePath s g.path false with
    | some e => (s, some e)
    | none =>
      if g.path.length > 1 then
        match lookupA s.groups (joinSep (parentPath g.path)) with
        | none => (s, some RegErr.missingParent)
        | some parentGroup =>
          if hasGroup parentGroup g.optionsName then
            registerGroupLoop s rest
          else
            let s2 := { s with
              groups := mapA s.groups (joinSep (parentPath g.path))
                (fun pg => addChildGroup pg g) }
            registerGroupLoop (commitGroup s2 g) rest
      else
        registerGroupLoop (commitGroup s g) rest

/-- `BaseRegistry.registerGroup(...groups)`: build the `CommandGroup`
objects, sort them by path size ascending, then run the registration
loop. -/
def registerGroup (s : St) (batch : List GroupOptions) : St × Option RegErr :=
  registerGroupLoop s (sortGroups (buildGroups batch))

/-- The path loop of `BaseRegistry.addCommand`: validate each of the
command's paths in order, inserting into `commands` and the cache;
a validation failure raises, keeping the insertions already made. -/
def addCmdLoop : St → Cmd → List Path → St × Option RegErr
  | s, _, [] => (s, none)
  | s, cmd, p :: rest =>
    match validatePath s p true with
    | some e => (s, some e)
    | none =>
      addCmdLoop
        { s with
          commands := insertA s.commands (joinSep p) cmd
          cachedPaths := cachePathFn s.cachedPaths p } cmd rest

/-- `BaseRegistry.addCommand(command, group?)`: register every path the
command owns, optionally link the command into the given group's child
list, fire `commandRegistered` once.  The group argument is the
canonical path string of the group object handed in (registry map
entries alias the objects, so mutating the object is mutating the map
entry). -/
def addCommand (s : St) (cmd : Cmd) (grp : Option String) : St × Option RegErr :=
  match addCmdLoop s cmd cmd.paths with
  | (s1, some e) => (s1, some e)
  | (s1, none) =>
    let s2 := match grp with
      | some gk => { s1 with groups := mapA s1.groups gk (fun g => addChildCommand g cmd) }
      | none => s1
    ({ s2 with events := s2.events ++ [Event.commandRegistered cmd] }, none)

/-- `BaseRegistry.unregisterCommand(path)`: assert the path resolves to
a command (raising otherwise with the state untouched), unlink from the
group at the path's parent if one is registered, delete every owned
path from `commands` and the cache, fire `commandUnregistered` once. -/
def unregisterCommand (s : St) (path : Path) : St × Option RegErr :=
  match lookupA s.commands (joinSep path) with
  | none => (s, some RegErr.assertFailure)
  | some cmd =>
    let s1 := match lookupA s.groups (joinSep (parentPath path)) with
      | some _ =>
        { s with groups := mapA s.groups (joinSep (parentPath path)) (fun g => removeChildCommand g cmd) }
      | none => s
    let s2 := cmd.paths.foldl
      (fun st p =>
        { st with
          commands := eraseA st.commands (joinSep p)
          cachedPaths := uncachePathFn st.cachedPaths p }) s1
    ({ s2 with events := s2.events ++ [Event.commandUnregistered cmd] }, none)

/-- The command loop inside `unregisterGroup`: unregister each child
command (by its primary path) in order, stopping on a raise. -/
def unregCmdList : St → List Cmd → St × Option RegErr
  | s, [] => (s, none)
  | s, c :: rest =>
    match unregisterCommand s (primaryPath c) with
    | (s1, some e) => (s1, some e)
    | (s1, none) => unregCmdList s1 rest

/-- `BaseRegistry.unregisterGroup(path)`, processed as a work list:
assert the group exists, unlink it from its parent, recursively
unregister its child commands then its child groups (depth-first,
children before the group itself), remove it from `groups` and the
cache, fire `groupUnregistered`.  The recursion through the group map
is paid for with fuel; every theorem supplies enough. -/
def unregGroupList : Nat → St → List Path → St × Option RegErr
  | _, s, [] => (s, none)
  | 0, s, _ :: _ => (s, some RegErr.fuelExhausted)
  | Nat.succ fuel, s, path :: rest =>
    match lookupA s.groups (joinSep path) with
    | none => (s, some RegErr.assertFailure)
    | some g =>
      let s1 := match lookupA s.groups (joinSep (parentPath path)) with
        | some _ =>
          { s with groups := mapA s.groups (joinSep (parentPath path)) (fun pg => removeChildGroup pg g) }
        | none => s
      match unregCmdList s1 g.childCommands with
      | (s2, some e) => (s2, some e)
      | (s2, none) =>
        let childPaths := (g.childGroups.filterMap (fun nk => lookupA s2.groups nk.2)).map
          (fun cg => cg.path)
        match unregGroupList fuel s2 childPaths with
        | (s3, some e) => (s3, some e)
        | (s3, none) =>
          let s4 := { s3 with
            groups := eraseA s3.groups (joinSep path)
            cachedPaths := uncachePathFn s3.cachedPaths path
            events := s3.events ++ [Event.groupUnregistered path] }
          unregGroupList fuel s4 rest

/-- `BaseRegistry.unregisterGroup(path)`. -/
def unregisterGroup (fuel : Nat) (s : St) (path : Path) : St × Option RegErr :=
  unregGroupList fuel s [path]

/-- Modelled from the spec: the index the child-path cache is claimed
to be "exactly reconstructible" to, obtained by re-walking the
`commands` and `groups` maps and caching every registered path into an
empty cache (the recovered path of a command entry is the owned path
whose canonical string is the entry's key). -/
def derivedCache (s : St) : CacheMap :=
  let groupPaths := s.groups.map (fun kv => kv.2.path)
  let commandPaths := s.commands.map
    (fun kv => ((kv.2.paths.filter (fun p => joinSep p = kv.1)).headD []))
  (groupPaths ++ commandPaths).foldl cachePathFn []

/-- The result of one dispatch attempt (`CommandInteraction` in the
shared core, which is not part of the sources).  Modelled from the
spec: `{executor, text, success flag, reply text}`; the reply
timestamp is omitted as pure wall-clock data.  A fresh interaction
defaults to success with no reply. -/
structure Interaction where
  executor : String
  text : String
  success : Bool
  replyText : String
deriving DecidableEq

/-- `new CommandInteraction(executor, text)` (modelled from the spec:
defaults to success-with-no-reply until the reply API is called). -/
def newInteraction (executor text : String) : Interaction :=
  ⟨executor, text, true, ""⟩

/-- `CommandInteraction.error(msg)` (modelled from the spec: sets the
failure flag and the reply text). -/
def interactionError (i : Interaction) (msg : String) : Interaction :=
  { i with success := false, replyText := msg }

/-- The log line produced by `ServerDispatcher.handleError`. -/
def handleErrorLog (executor text err : String) : String :=
  executor ++ " tried to run '" ++ text ++ "' but an error occurred: " ++ err

/-- `ServerDispatcher.run(path, executor, text)`.  The inherited
`BaseDispatcher.executeCommand` pipeline is not part of the sources;
modelled from the spec, its outcome is either a resolved `Interaction`
or a raised internal fault, and `run` is parametric in that outcome:
`.catch` turns any fault into a logged generic-failure interaction, so
`run` itself is total and always yields exactly one interaction plus
the log lines it emitted. -/
def dispatcherRun (result : Except String Interaction) (executor text : String) :
    Interaction × List String :=
  match result with
  | Except.ok i => (i, [])
  | Except.error err =>
    (interactionError (newInteraction executor text) "An error occurred.",
      [handleErrorLog executor text err])

/-! ### Concrete runs exhibiting the `uncachePath` defects

`uncachePath` removes every prefix of the removed path from the cache
even when other registered paths still need that prefix, and it stops
its walk (`break`) at the first absent key, leaving deeper entries
behind.  The states below are reached through the public mutation API
from the empty registry. -/

/-- Register group `a` and commands `a/b`, `a/c`, then unregister
command `a/b`. -/
def c1State : St :=
  let s := (registerGroup emptySt [⟨"a", none⟩]).1
  let s := (addCommand s ⟨[["a", "b"]], 1⟩ none).1
  let s := (addCommand s ⟨[["a", "c"]], 2⟩ none).1
  (unregisterCommand s ["a", "b"]).1

/-- Register commands `a/b` and `a/c`, then unregister both. -/
def c4State : St :=
  let s := (addCommand emptySt ⟨[["a", "b"]], 1⟩ none).1
  let s := (addCommand s ⟨[["a", "c"]], 2⟩ none).1
  let s := (unregisterCommand s ["a", "b"]).1
  (unregisterCommand s ["a", "c"]).1

/-- Register group `a` and a command with alias paths `a/x`, `a/y`
linked under it, then unregister the command via `a/x`. -/
def c7State : St :=
  let s := (registerGroup emptySt [⟨"a", none⟩]).1
  let s := (addCommand s ⟨[["a", "x"], ["a", "y"]], 7⟩ (some "a")).1
  (unregisterCommand s ["a", "x"]).1

/-- Register group `a` with two child commands `a/b`, `a/c`, then
unregister the group. -/
def c6Run : St × Option RegErr :=
  let s := (registerGroup emptySt [⟨"a", none⟩]).1
  let s := (addCommand s ⟨[["a", "b"]], 1⟩ (some "a")).1
  let s := (addCommand s ⟨[["a", "c"]], 2⟩ (some "a")).1
  unregisterGroup 5 s ["a"]

/-- Register groups `a` and `a/b`, then call `registerGroup` with a
batch holding a group under the unregistered parent `zzz` and a
sibling definition under the registered parent `a/b`. -/
def c2Run : St × Option RegErr :=
  let s := (registerGroup emptySt [⟨"a", none⟩]).1
  let s := (registerGroup s [⟨"b", some ["a"]⟩]).1
  registerGroup s [⟨"x", some ["zzz"]⟩, ⟨"c", some ["a", "b"]⟩]

/-- C1: the claim states that after any sequence of registry mutations
the child-path cache equals the index derivable by re-walking the
`commands` and `groups` maps.  It fails on the code: after registering
group `a` and commands `a/b`, `a/c` and unregistering `a/b`,
`uncachePath` has removed prefix `a` from the root list and deleted the
`__root__` key entirely, although group `a` and command `a/c` are still
registered and the re-walk-derived index maps `__root__` to `[a]`. -/
theorem c1_cache_not_reconstructible :
    lookupA c1State.cachedPaths rootKey = none ∧
    lookupA (derivedCache c1State) rootKey = some [["a"]] ∧
    lookupA c1State.groups "a" ≠ none ∧
    lookupA c1State.commands "a/c" ≠ none := by decide

/-- C2: the claim states that a group whose parent path is not
registered is skipped while its siblings in the same batch still
proceed.  It fails on the code: `registerGroup` aborts the whole call
at the missing parent (a `return`/raise instead of the `continue` used
for the duplicate-child case), so with groups `a` and `a/b` registered,
the batch `[x under zzz, c under a/b]` reports the structural error for
`zzz/x` and never registers the sibling `a/b/c`. -/
theorem c2_sibling_group_skipped_on_missing_parent :
    lookupA c2Run.1.groups "a/b/c" = none ∧
    lookupA c2Run.1.groups "zzz/x" = none ∧
    c2Run.2 = some RegErr.missingParent := by decide

/-- C4: the claim states that immediately after unregistering a valid
path `p`, `getChildPaths(p.parent())` no longer contains `p`.  It fails
on the code from a reachable state: after registering commands `a/b`
and `a/c`, unregistering `a/b` deletes the `__root__` cache key, so the
subsequent `uncachePath` walk for `a/c` breaks at the missing root key
and leaves `a/c` in the list under `a` — `getChildPaths(["a"])` still
contains `a/c` although the command is gone from the map. -/
theorem c4_stale_child_path_after_unregister :
    getCommand c4State ["a", "c"] = none ∧
    c4State.commands = [] ∧
    getChildPaths c4State ["a"] = [["a", "c"]] := by decide

/-- C6: the claim states that `unregisterGroup` removes all descendant
entities from the registry maps and the cache, firing the unregistered
events children-before-parent.  The maps and events behave as claimed
on this input (two child commands, no subgroups: both command events
fire before the group's own event), but the cache clause fails on the
code: after unregistering group `a` with child commands `a/b` and
`a/c`, the cache still holds the descendant path `a/c` under key `a`,
because removing `a/b` deleted the `__root__` key and every later
`uncachePath` walk breaks there immediately. -/
theorem c6_unregister_group_leaves_cache_entry :
    c6Run.1.commands = [] ∧
    c6Run.1.groups = [] ∧
    c6Run.2 = none ∧
    lookupA c6Run.1.cachedPaths "a" = some [["a", "c"]] ∧
    c6Run.1.events =
      [Event.groupRegistered ["a"],
        Event.commandRegistered ⟨[["a", "b"]], 1⟩,
        Event.commandRegistered ⟨[["a", "c"]], 2⟩,
        Event.commandUnregistered ⟨[["a", "b"]], 1⟩,
        Event.commandUnregistered ⟨[["a", "c"]], 2⟩,
        Event.groupUnregistered ["a"]] := by decide

/-- C7: the claim states that a successful `unregisterCommand` removes
every path the command owns from both the commands map and the
child-path cache.  The map clause holds but the cache clause fails on
the code: for a command with alias paths `a/x` and `a/y` under group
`a`, unregistering via `a/x` first deletes the `__root__` cache key
(shared-prefix removal), so the walk for the second owned path `a/y`
breaks immediately and `a/y` stays cached under `a`; exactly one
`commandUnregistered` event fires and the group unlink does happen. -/
theorem c7_alias_path_left_in_cache :
    c7State.commands = [] ∧
    lookupA c7State.cachedPaths "a" = some [["a", "y"]] ∧
    (lookupA c7State.groups "a").map (fun g => g.childCommands) = some [] ∧
    c7State.events.filter
      (fun e => match e with | Event.commandUnregistered _ => true | _ => false) =
      [Event.commandUnregistered ⟨[["a", "x"], ["a", "y"]], 7⟩] := by decide

/-! ### C5: the dispatcher boundary -/

/-- C5: `ServerDispatcher.run` never propagates an exception: it is a
total function producing exactly one `Interaction` (plus its log
lines) for every outcome of the execution pipeline.  When the pipeline
raises an internal fault, the interaction has `success = false` with
the generic reply `"An error occurred."` — the fault text never
reaches the reply, only the logging channel; a resolved interaction
passes through unchanged with nothing logged. -/
theorem c5_dispatcher_resolves_faults (r : Except String Interaction)
    (executor text : String) :
    (∀ err : String, r = Except.error err →
      (dispatcherRun r executor text).1.success = false ∧
      (dispatcherRun r executor text).1.replyText = "An error occurred." ∧
      (dispatcherRun r executor text).2 = [handleErrorLog executor text err]) ∧
    (∀ i : Interaction, r = Except.ok i → dispatcherRun r executor text = (i, [])) := by
  constructor
  · intro err h
    subst h
    exact ⟨rfl, rfl, rfl⟩
  · intro i h
    subst h
    rfl

/-- Closed instance of C5 at a concrete fault: the fault text `boom`
is logged but the reply is the generic message. -/
theorem c5_dispatcher_resolves_faults_witness :
    (dispatcherRun (Except.error "boom") "player1" "kick x").1.success = false ∧
    (dispatcherRun (Except.error "boom") "player1" "kick x").1.replyText =
      "An error occurred." ∧
    (dispatcherRun (Except.error "boom") "player1" "kick x").2 =
      [handleErrorLog "player1" "kick x" "boom"] :=
  (c5_dispatcher_resolves_faults (Except.error "boom") "player1" "kick x").1 "boom" rfl

/-! ### C8: last-write-wins type registration -/

/-- The descriptor supplied by the most recent element of `l` whose
name is `n` (later list elements are more recent registrations). -/
def lastNamed (n : String) : List ArgType → Option ArgType
  | [] => none
  | t :: rest =>
    (lastNamed n rest).orElse (fun _ => if t.name = n then some t else none)

theorem lookupA_insertA {α : Type} (m : List (String × α)) (k k2 : String) (v : α) :
    lookupA (insertA m k v) k2 = if k = k2 then some v else lookupA m k2 := by
  induction m with
  | nil => rfl
  | cons kv rest ih =>
    obtain ⟨k0, v0⟩ := kv
    by_cases h0 : k0 = k
    · subst h0
      simp only [insertA, if_pos rfl, lookupA]
      by_cases h2 : k0 = k2
      · subst h2
        simp
      · simp [h2]
    · simp only [insertA, if_neg h0, lookupA, ih]
      by_cases h2 : k0 = k2
      · subst h2
        have : ¬ k = k0 := fun h => h0 h.symm
        simp [this]
      · simp [h2]

theorem lookupA_registerType_batch (l : List ArgType) :
    ∀ (m : List (String × ArgType)) (n : String),
      lookupA (l.foldl (fun m0 t => insertA m0 t.name t) m) n =
        (lastNamed n l).elim (lookupA m n) some := by
  induction l with
  | nil =>
    intro m n
    simp [lastNamed]
  | cons t rest ih =>
    intro m n
    have step : (t :: rest).foldl (fun m0 t0 => insertA m0 t0.name t0) m =
        rest.foldl (fun m0 t0 => insertA m0 t0.name t0) (insertA m t.name t) := rfl
    rw [step, ih]
    cases h : lastNamed n rest with
    | some u =>
      simp [lastNamed, h, Option.orElse]
    | none =>
      simp only [lastNamed, h, Option.orElse, lookupA_insertA]
      by_cases hn : t.name = n
      · simp [hn]
      · simp [hn]

theorem lastNamed_append (n : String) (l1 l2 : List ArgType) :
    lastNamed n (l1 ++ l2) = (lastNamed n l2).orElse (fun _ => lastNamed n l1) := by
  induction l1 with
  | nil =>
    cases h : lastNamed n l2 <;> simp [lastNamed, h, Option.orElse]
  | cons t ts ih =>
    simp only [List.cons_append, lastNamed, List.append_eq]
    rw [ih]
    cases h : lastNamed n l2 <;> cases h2 : lastNamed n ts <;> simp [Option.orElse]

/-- C8: `registerType` is last-write-wins per type name: after any
sequence of `registerType` calls, `getType n` returns the descriptor
of the most recent call that supplied a descriptor named `n`, falling
back to whatever the starting state held (in particular `undefined`
from an empty type map). -/
theorem c8_register_type_last_write_wins (s : St) (batches : List (List ArgType))
    (n : String) :
    getType (runRegisterTypes s batches) n =
      (lastNamed n batches.flatten).elim (getType s n) some := by
  induction batches generalizing s with
  | nil =>
    simp [runRegisterTypes, lastNamed]
  | cons b rest ih =>
    have step : runRegisterTypes s (b :: rest) = runRegisterTypes (registerType s b) rest := rfl
    rw [step, ih]
    have hb : getType (registerType s b) n = (lastNamed n b).elim (getType s n) some :=
      lookupA_registerType_batch b s.types n
    rw [hb]
    have hflat : (b :: rest).flatten = b ++ rest.flatten := List.flatten_cons
    rw [hflat, lastNamed_append]
    cases h : lastNamed n rest.flatten <;> simp [Option.orElse]

/-! ### C9: depth sorting in `registerGroup` -/

theorem perm_insertBySize (x : Grp) (l : List Grp) : (insertBySize x l).Perm (x :: l) := by
  induction l with
  | nil => exact List.Perm.refl _
  | cons y ys ih =>
    unfold insertBySize
    split
    · exact List.Perm.refl _
    · exact (ih.cons y).trans (List.Perm.swap x y ys)

theorem perm_sortGroups (l : List Grp) : (sortGroups l).Perm l := by
  induction l with
  | nil => exact List.Perm.refl _
  | cons x xs ih => exact (perm_insertBySize x (sortGroups xs)).trans (ih.cons x)

theorem sizeLe_of_not_sizeLe {a b : Grp} (h : ¬ sizeLe a b = true) : sizeLe b a = true := by
  simp only [sizeLe, decide_eq_true_eq] at *
  omega

theorem sizeLe_trans {a b c : Grp} (h1 : sizeLe a b = true) (h2 : sizeLe b c = true) :
    sizeLe a c = true := by
  simp only [sizeLe, decide_eq_true_eq] at *
  omega

theorem pairwise_insertBySize (x : Grp) (l : List Grp)
    (h : l.Pairwise (fun a b => sizeLe a b = true)) :
    (insertBySize x l).Pairwise (fun a b => sizeLe a b = true) := by
  induction l with
  | nil => simp [insertBySize]
  | cons y ys ih =>
    cases h with
    | cons hy hys =>
      unfold insertBySize
      split
      · rename_i hxy
        refine List.Pairwise.cons ?_ (List.Pairwise.cons hy hys)
        intro b hb
        rcases List.mem_cons.mp hb with hb | hb
        · exact hb ▸ hxy
        · exact sizeLe_trans hxy (hy b hb)
      · rename_i hxy
        refine List.Pairwise.cons ?_ (ih hys)
        intro b hb
        rcases List.mem_cons.mp ((perm_insertBySize x ys).mem_iff.mp hb) with hb | hb
        · exact hb ▸ sizeLe_of_not_sizeLe hxy
        · exact hy b hb

theorem sorted_sortGroups (l : List Grp) :
    (sortGroups l).Pairwise (fun a b => sizeLe a b = true) := by
  induction l with
  | nil => exact List.Pairwise.nil
  | cons x xs ih => exact pairwise_insertBySize x (sortGroups xs) ih

/-- C9: `registerGroup` sorts the whole batch of built group objects by
path depth (segment count) ascending before registering any of them:
the registration loop runs on `sortGroups (buildGroups batch)`, which
is a permutation of the built batch that is pairwise nondecreasing in
path size — so a parent (strictly shallower) group always precedes
each of its children in the processed order, regardless of the order
the definitions were supplied in. -/
theorem c9_register_group_sorts_by_depth (st : St) (batch : List GroupOptions) :
    registerGroup st batch = registerGroupLoop st (sortGroups (buildGroups batch)) ∧
    (sortGroups (buildGroups batch)).Perm (buildGroups batch) ∧
    (sortGroups (buildGroups batch)).Pairwise (fun a b => sizeLe a b = true) :=
  ⟨rfl, perm_sortGroups (buildGroups batch), sorted_sortGroups (buildGroups batch)⟩

/-! ### C3: command/group path collisions -/

theorem validatePath_some_of_group (s : St) (p : Path) (b : Bool)
    (h : (lookupA s.groups (joinSep p)).isSome = true) :
    ∃ e, validatePath s p b = some e := by
  unfold validatePath
  split_ifs <;> exact ⟨_, rfl⟩

theorem validatePath_some_of_command (s : St) (p : Path) (b : Bool)
    (h : (lookupA s.commands (joinSep p)).isSome = true) :
    ∃ e, validatePath s p b = some e := by
  unfold validatePath
  split_ifs <;> exact ⟨_, rfl⟩

/-- C3: a path can belong to at most one entity and the earlier
registration wins.  Registering a command whose (primary) path `p` is
already held by a group is rejected by `validatePath` before any map
or cache entry is written, so `addCommand` raises with the state
exactly unchanged; symmetrically, registering a group whose built path
is already held by a command raises with the state exactly
unchanged. -/
theorem c3_collision_rejected (st : St) (p : Path) (rest : List Path) (cmd : Cmd)
    (grp : Option String) (g : Grp) (gopts : GroupOptions) (c : Cmd) :
    (cmd.paths = p :: rest → lookupA st.groups (joinSep p) = some g →
      ∃ e, addCommand st cmd grp = (st, some e)) ∧
    (lookupA st.commands (joinSep (buildPath gopts)) = some c →
      ∃ e, registerGroup st [gopts] = (st, some e)) := by
  constructor
  · intro hp hg
    obtain ⟨e, he⟩ := validatePath_some_of_group st p true (by rw [hg]; rfl)
    refine ⟨e, ?_⟩
    unfold addCommand
    rw [hp]
    unfold addCmdLoop
    rw [he]
  · intro hc
    obtain ⟨e, he⟩ := validatePath_some_of_command st (buildPath gopts) false
      (by rw [hc]; rfl)
    refine ⟨e, ?_⟩
    unfold registerGroup
    have hb : sortGroups (buildGroups [gopts]) = [⟨buildPath gopts, gopts.name, [], []⟩] := rfl
    rw [hb]
    unfold registerGroupLoop
    rw [he]

/-- A registry holding group `g` and command `c`. -/
def c3WitnessSt : St :=
  ⟨[("c", ⟨[["c"]], 3⟩)], [("g", ⟨["g"], "g", [], []⟩)], [], [], []⟩

/-- Closed instance of C3: adding a command at the group path `g` and
registering a group at the command path `c` are both rejected with the
state unchanged. -/
theorem c3_collision_rejected_witness :
    (∃ e, addCommand c3WitnessSt ⟨[["g"]], 9⟩ none = (c3WitnessSt, some e)) ∧
    (∃ e, registerGroup c3WitnessSt [⟨"c", none⟩] = (c3WitnessSt, some e)) :=
  ⟨(c3_collision_rejected c3WitnessSt ["g"] [] ⟨[["g"]], 9⟩ none ⟨["g"], "g", [], []⟩
      ⟨"c", none⟩ ⟨[["c"]], 3⟩).1 rfl rfl,
    (c3_collision_rejected c3WitnessSt ["g"] [] ⟨[["g"]], 9⟩ none ⟨["g"], "g", [], []⟩
      ⟨"c", none⟩ ⟨[["c"]], 3⟩).2 (by decide)⟩

/-! ### C10: case-insensitive child lookup -/

theorem toNat_ofNat_valid (n : Nat) (h : n.isValidChar) : (Char.ofNat n).toNat = n := by
  rw [Char.ofNat, dif_pos h]
  rfl

theorem lowerC_lowerC (c : Char) : lowerC (lowerC c) = lowerC c := by
  unfold lowerC
  by_cases h : 65 ≤ c.toNat ∧ c.toNat ≤ 90
  · rw [if_pos h]
    have hv : (c.toNat + 32).isValidChar := Or.inl (by omega)
    have ht : (Char.ofNat (c.toNat + 32)).toNat = c.toNat + 32 := toNat_ofNat_valid _ hv
    rw [ht]
    rw [if_neg (by omega)]
  · rw [if_neg h, if_neg h]

theorem map_lowerC_idem (l : List Char) : (l.map lowerC).map lowerC = l.map lowerC := by
  induction l with
  | nil => rfl
  | cons c cs ih => simp [lowerC_lowerC, ih]

theorem lowerS_idem (s : String) : lowerS (lowerS s) = lowerS s :=
  congrArg String.mk (map_lowerC_idem s.data)

theorem lowerS_append (a b : String) : lowerS (a ++ b) = lowerS a ++ lowerS b := by
  cases a with
  | mk la =>
    cases b with
    | mk lb =>
      show String.mk ((la ++ lb).map lowerC) = String.mk (la.map lowerC ++ lb.map lowerC)
      rw [List.map_append]

theorem lowerS_slash : lowerS "/" = "/" := by decide

theorem joinSep_lowerS (p : Path) (h : ∀ x ∈ p, lowerS x = x) :
    lowerS (joinSep p) = joinSep p := by
  induction p with
  | nil => decide
  | cons s rest ih =>
    cases rest with
    | nil => exact h s (List.Mem.head _)
    | cons t ts =>
      show lowerS (s ++ "/" ++ joinSep (t :: ts)) = s ++ "/" ++ joinSep (t :: ts)
      rw [lowerS_append, lowerS_append, lowerS_slash, h s (List.Mem.head _),
        ih (fun x hx => h x (List.mem_cons_of_mem s hx))]

/-- Every key of a cache map is already lower-cased. -/
def LowerKeys (m : CacheMap) : Prop := ∀ kv ∈ m, lowerS kv.1 = kv.1

theorem lowerKeys_insertA (m : CacheMap) (k : String) (v : List Path)
    (hm : LowerKeys m) (hk : lowerS k = k) : LowerKeys (insertA m k v) := by
  induction m with
  | nil =>
    intro kv hkv
    simp only [insertA] at hkv
    rw [List.mem_singleton] at hkv
    subst hkv
    exact hk
  | cons kv0 rest ih =>
    obtain ⟨k0, v0⟩ := kv0
    by_cases h0 : k0 = k
    · subst h0
      simp only [insertA, if_pos rfl]
      intro kv hkv
      rcases List.mem_cons.mp hkv with rfl | hkv
      · exact hk
      · exact hm kv (List.mem_cons_of_mem _ hkv)
    · simp only [insertA, if_neg h0]
      intro kv hkv
      rcases List.mem_cons.mp hkv with rfl | hkv
      · exact hm (k0, v0) (List.Mem.head _)
      · exact ih (fun kv2 hkv2 => hm kv2 (List.mem_cons_of_mem _ hkv2)) kv hkv

theorem lowerKeys_eraseA (m : CacheMap) (k : String) (hm : LowerKeys m) :
    LowerKeys (eraseA m k) :=
  fun kv hkv => hm kv (List.mem_of_mem_filter hkv)

theorem lowerKeys_cachePathGo (segs : List String) :
    ∀ (cache : CacheMap) (key : String) (pref : Path),
      LowerKeys cache → lowerS key = key → (∀ x ∈ pref, lowerS x = x) →
      (∀ x ∈ segs, lowerS x = x) →
      LowerKeys (cachePathGo cache key pref segs) := by
  induction segs with
  | nil =>
    intro cache key pref hc _ _ _
    exact hc
  | cons seg rest ih =>
    intro cache key pref hc hk hp hs
    have hslice : ∀ x ∈ pref ++ [seg], lowerS x = x := by
      intro x hx
      rcases List.mem_append.mp hx with hx | hx
      · exact hp x hx
      · rw [List.mem_singleton] at hx
        rw [hx]
        exact hs seg (List.Mem.head _)
    show LowerKeys (cachePathGo _ _ _ rest)
    exact ih _ _ _ (lowerKeys_insertA _ _ _ hc hk) (joinSep_lowerS _ hslice) hslice
      (fun x hx => hs x (List.mem_cons_of_mem _ hx))

theorem lowerKeys_cachePathFn (cache : CacheMap) (p : Path)
    (hc : LowerKeys cache) (hp : ∀ x ∈ p, lowerS x = x) :
    LowerKeys (cachePathFn cache p) :=
  lowerKeys_cachePathGo p cache rootKey [] hc (by decide)
    (fun x hx => absurd hx (List.not_mem_nil x)) hp

theorem lowerKeys_registerGroupLoop (gl : List Grp) :
    ∀ s : St, LowerKeys s.cachedPaths →
      (∀ g ∈ gl, ∀ x ∈ g.path, lowerS x = x) →
      LowerKeys (registerGroupLoop s gl).1.cachedPaths := by
  induction gl with
  | nil =>
    intro s hs _
    exact hs
  | cons g rest ih =>
    intro s hs hg
    have hgp : ∀ x ∈ g.path, lowerS x = x := hg g (List.Mem.head _)
    have hrest : ∀ g2 ∈ rest, ∀ x ∈ g2.path, lowerS x = x :=
      fun g2 h2 => hg g2 (List.mem_cons_of_mem _ h2)
    cases hv : validatePath s g.path false with
    | some e =>
      simp only [registerGroupLoop, hv]
      exact hs
    | none =>
      simp only [registerGroupLoop, hv]
      split
      · split
        · exact hs
        · split
          · exact ih s hs hrest
          · exact ih _ (lowerKeys_cachePathFn _ _ hs hgp) hrest
      · exact ih _ (lowerKeys_cachePathFn _ _ hs hgp) hrest

theorem lowerKeys_buildGroups (batch : List GroupOptions) :
    ∀ g ∈ buildGroups batch, ∀ x ∈ g.path, lowerS x = x := by
  intro g hg x hx
  obtain ⟨opts, _, rfl⟩ := List.mem_map.mp hg
  rcases List.mem_append.mp hx with hx | hx
  · obtain ⟨y, _, rfl⟩ := List.mem_map.mp hx
    exact lowerS_idem y
  · rw [List.mem_singleton] at hx
    subst hx
    exact lowerS_idem _

/-- C10: `getChildPaths` lower-cases the canonical string of its query
before the cache lookup, while `registerGroup` builds cache keys from
already-lowercased segments.  Hence lookups agree on any two query
paths with the same lower-casing (in particular on any query differing
from a registered prefix only in letter case), `registerGroup`
preserves the all-keys-lowercase invariant (from the empty registry
every key is lower-cased), and a prefix with no cached children yields
the empty list, never `undefined`. -/
theorem c10_case_insensitive_child_lookup (st : St) (p q : Path)
    (batch : List GroupOptions) :
    (lowerS (joinSep p) = lowerS (joinSep q) → getChildPaths st p = getChildPaths st q) ∧
    (LowerKeys st.cachedPaths → LowerKeys (registerGroup st batch).1.cachedPaths) ∧
    (lookupA st.cachedPaths (lowerS (joinSep p)) = none → getChildPaths st p = []) := by
  refine ⟨?_, ?_, ?_⟩
  · intro h
    unfold getChildPaths
    rw [h]
  · intro h
    exact lowerKeys_registerGroupLoop (sortGroups (buildGroups batch)) st h
      (fun g hg => lowerKeys_buildGroups batch g ((perm_sortGroups _).mem_iff.mp hg))
  · intro h
    unfold getChildPaths
    rw [h]
    rfl

/-- Closed instance of C10: after registering group `A` (stored
lower-cased), queries `["A"]` and `["a"]` agree, the cache keys are all
lower-cased, and an unknown prefix yields `[]`. -/
theorem c10_case_insensitive_child_lookup_witness :
    (getChildPaths (registerGroup emptySt [⟨"A", none⟩]).1 ["A"] =
      getChildPaths (registerGroup emptySt [⟨"A", none⟩]).1 ["a"]) ∧
    LowerKeys (registerGroup emptySt [⟨"A", none⟩]).1.cachedPaths ∧
    getChildPaths emptySt ["zz"] = [] :=
  ⟨(c10_case_insensitive_child_lookup (registerGroup emptySt [⟨"A", none⟩]).1
      ["A"] ["a"] []).1 (by decide),
    (c10_case_insensitive_child_lookup emptySt ["A"] ["a"] [⟨"A", none⟩]).2.1
      (fun kv hkv => absurd hkv (List.not_mem_nil kv)),
    (c10_case_insensitive_child_lookup emptySt ["zz"] [] []).2.2 rfl⟩

end Cmdx
